import Mathlib

/-!
Verification development for the Website-Data-Extraction repository.

The repository is a React single-page UI (`DataExtractor`) around one external
webhook.  The behaviour that the claims concern lives in the polling variant of
the component (source file `src/unnamed/part_000`, second document):

* `pollJobStatus`   - one status-check POST for a given `extract_id`;
* `waitForCompletion` - the unbounded 2-second polling loop;
* `handleExtract`   - input validation, the initial submission POST, the
  dispatch between the immediately-completed / polling / fallback paths, and
  the `catch` / `finally` blocks updating the component state;
* the results card, which renders `JSON.stringify(extractedData, null, 2)`.

The shallow embedding below models JSON values, the JavaScript
`JSON.stringify(v, null, 2)` serialisation (as used by the component), the
component state, the webhook as a response oracle, and the three functions
above as pure Lean functions.  Network effects are made observable through an
explicit event log (requests, 2000 ms sleeps, toasts).  The possibly
non-terminating polling loop takes a fuel parameter and returns `none` when
the fuel runs out without a terminal response.
-/

/-- Unicode code points used by the JSON serialiser, kept as named constants. -/
def quoteChar : Char := Char.ofNat 34

/-- The backslash character. -/
def backslashChar : Char := Char.ofNat 92

/-- The opening curly bracket. -/
def lbraceChar : Char := Char.ofNat 123

/-- The closing curly bracket. -/
def rbraceChar : Char := Char.ofNat 125

/-- The newline character. -/
def nlChar : Char := Char.ofNat 10

/-- The tab character. -/
def tabChar : Char := Char.ofNat 9

/-- The carriage-return character. -/
def crChar : Char := Char.ofNat 13

/-- The backspace character. -/
def bsChar : Char := Char.ofNat 8

/-- The form-feed character. -/
def ffChar : Char := Char.ofNat 12

/-- JSON whitespace as skipped by a JSON parser. -/
def isWs (c : Char) : Bool :=
  c = ' ' || c = nlChar || c = tabChar || c = crChar

/-- The decimal digit character for `n < 10`. -/
def digitChar (n : Nat) : Char := Char.ofNat (48 + n)

/-- The lower-case hexadecimal digit character for `n < 16`, as produced by
JavaScript's `JSON.stringify` when escaping control characters. -/
def hexDigitChar (n : Nat) : Char :=
  if n < 10 then Char.ofNat (48 + n) else Char.ofNat (87 + n)

mutual

/-- JSON values, as delivered by the webhook and rendered by the component.
Numbers are modelled as integers (the only numbers the UI logic ever
distinguishes); arrays and objects are a mutual inductive family so that all
functions below are plain structural recursions. -/
inductive Json where
  | null : Json
  | bool (b : Bool) : Json
  | num (n : Int) : Json
  | str (s : String) : Json
  | arr (elems : JsonList) : Json
  | obj (members : JsonObj) : Json

/-- A list of JSON values (array contents). -/
inductive JsonList where
  | nil : JsonList
  | cons (hd : Json) (tl : JsonList) : JsonList

/-- A list of key/value members (object contents). -/
inductive JsonObj where
  | nil : JsonObj
  | cons (key : String) (val : Json) (tl : JsonObj) : JsonObj
end

mutual

/-- Structural size of a JSON value, used as parser fuel accounting. -/
def jsize : Json → Nat
  | Json.null => 1
  | Json.bool _ => 1
  | Json.num _ => 1
  | Json.str _ => 1
  | Json.arr xs => jsizeL xs + 1
  | Json.obj kvs => jsizeO kvs + 1

/-- Structural size of a JSON array body. -/
def jsizeL : JsonList → Nat
  | JsonList.nil => 1
  | JsonList.cons x xs => jsize x + jsizeL xs + 1

/-- Structural size of a JSON object body. -/
def jsizeO : JsonObj → Nat
  | JsonObj.nil => 1
  | JsonObj.cons _ v t => jsize v + jsizeO t + 2
end

/-- JavaScript truthiness of a JSON value, as used by the component in
`initialResponse.data || initialResponse` and `extractedData && !isLoading`. -/
def Json.truthy : Json → Bool
  | Json.null => false
  | Json.bool b => b
  | Json.num n => if n = 0 then false else true
  | Json.str s => if s = "" then false else true
  | Json.arr _ => true
  | Json.obj _ => true

/-- Characters of the literal `null` after its first character. -/
def litNull : List Char := [ 'u', 'l', 'l' ]

/-- Characters of the literal `true` after its first character. -/
def litTrue : List Char := [ 'r', 'u', 'e' ]

/-- Characters of the literal `false` after its first character. -/
def litFalse : List Char := [ 'a', 'l', 's', 'e' ]

/-- Indentation: `n` space characters. -/
def spacesChars (n : Nat) : List Char := List.replicate n ' '

/-- How `JSON.stringify` escapes a single character inside a string literal:
quote, backslash and the named control characters get two-character escapes,
other control characters get a `\u00XX` escape, everything else is copied. -/
def escapeChar (c : Char) : List Char :=
  if c = quoteChar then [backslashChar, quoteChar]
  else if c = backslashChar then [backslashChar, backslashChar]
  else if c = nlChar then [backslashChar, 'n']
  else if c = crChar then [backslashChar, 'r']
  else if c = tabChar then [backslashChar, 't']
  else if c = bsChar then [backslashChar, 'b']
  else if c = ffChar then [backslashChar, 'f']
  else if c.toNat < 32 then
    [backslashChar, 'u', '0', '0', hexDigitChar (c.toNat / 16), hexDigitChar (c.toNat % 16)]
  else [c]

/-- Escape every character of a string body. -/
def escapeChars : List Char → List Char
  | [] => []
  | c :: cs => escapeChar c ++ escapeChars cs

/-- Decimal digits of a natural number (fuelled so that it reduces). -/
def natDigitsAux : Nat → Nat → List Char
  | 0, _ => []
  | Nat.succ fuel, n =>
    if n < 10 then [digitChar n] else natDigitsAux fuel (n / 10) ++ [digitChar (n % 10)]

/-- Decimal digits of a natural number. -/
def natDigits (n : Nat) : List Char := natDigitsAux (n + 1) n

/-- Decimal representation of an integer, as `JSON.stringify` prints it. -/
def intChars (n : Int) : List Char :=
  if n < 0 then '-' :: natDigits n.natAbs else natDigits n.toNat

/-- The serialised form of an object key followed by the colon and space that
`JSON.stringify(v, null, 2)` places before the member value. -/
def keyChars (k : String) : List Char :=
  quoteChar :: (escapeChars k.toList ++ [quoteChar, ':', ' '])

mutual

/-- Character stream produced by `JSON.stringify(v, null, 2)` at indentation
depth `d` (the component renders with `JSON.stringify(extractedData, null, 2)`,
i.e. two-space pretty printing). -/
def printVal (d : Nat) : Json → List Char
  | Json.null => 'n' :: litNull
  | Json.bool b => if b then 't' :: litTrue else 'f' :: litFalse
  | Json.num n => intChars n
  | Json.str s => quoteChar :: (escapeChars s.toList ++ [quoteChar])
  | Json.arr JsonList.nil => [ '[', ']' ]
  | Json.arr (JsonList.cons x xs) =>
    '[' :: nlChar :: (spacesChars (d + 2) ++ (printVal (d + 2) x ++
      (printListRest (d + 2) xs ++ ((nlChar :: spacesChars d) ++ [ ']' ]))))
  | Json.obj JsonObj.nil => [lbraceChar, rbraceChar]
  | Json.obj (JsonObj.cons k v kvs) =>
    lbraceChar :: nlChar :: (spacesChars (d + 2) ++ (keyChars k ++ (printVal (d + 2) v ++
      (printObjRest (d + 2) kvs ++ ((nlChar :: spacesChars d) ++ [rbraceChar])))))

/-- Second and later array elements: comma, newline, indentation, element. -/
def printListRest (d : Nat) : JsonList → List Char
  | JsonList.nil => []
  | JsonList.cons x xs =>
    ',' :: nlChar :: (spacesChars d ++ (printVal d x ++ printListRest d xs))

/-- Second and later object members: comma, newline, indentation, member. -/
def printObjRest (d : Nat) : JsonObj → List Char
  | JsonObj.nil => []
  | JsonObj.cons k v kvs =>
    ',' :: nlChar :: (spacesChars d ++ (keyChars k ++ (printVal d v ++ printObjRest d kvs)))
end

/-- The string the component renders inside the results `<pre>` block:
`JSON.stringify(extractedData, null, 2)`. -/
def stringify (v : Json) : String := String.mk (printVal 0 v)

/-- Drop leading JSON whitespace. -/
def skipWs (cs : List Char) : List Char := List.dropWhile isWs cs

/-- Match an expected literal character sequence, returning the remainder. -/
def dropLit : List Char → List Char → Option (List Char)
  | [], cs => some cs
  | _ :: _, [] => none
  | l :: ls, c :: cs => if c = l then dropLit ls cs else none

/-- Inverse of the two-character escapes accepted inside a JSON string. -/
def unescapeChar (e : Char) : Option Char :=
  if e = quoteChar then some quoteChar
  else if e = backslashChar then some backslashChar
  else if e = '/' then some '/'
  else if e = 'n' then some nlChar
  else if e = 'r' then some crChar
  else if e = 't' then some tabChar
  else if e = 'b' then some bsChar
  else if e = 'f' then some ffChar
  else none

/-- Value of one hexadecimal digit character. -/
def hexDigVal (c : Char) : Option Nat :=
  if c.isDigit then some (c.toNat - 48)
  else if 97 ≤ c.toNat ∧ c.toNat ≤ 102 then some (c.toNat - 87)
  else if 65 ≤ c.toNat ∧ c.toNat ≤ 70 then some (c.toNat - 55)
  else none

/-- Parse the body of a JSON string literal (the opening quote already
consumed), returning the decoded characters and the remainder after the
closing quote. -/
def parseStrAux : List Char → Option (List Char × List Char)
  | [] => none
  | c :: rest =>
    if c = quoteChar then some ([], rest)
    else if c = backslashChar then
      match rest with
      | [] => none
      | e :: rest2 =>
        if e = 'u' then
          match rest2 with
          | h1 :: h2 :: h3 :: h4 :: rest3 =>
            match hexDigVal h1, hexDigVal h2, hexDigVal h3, hexDigVal h4 with
            | some a, some b, some c3, some d4 =>
              match parseStrAux rest3 with
              | some (s, r) => some (Char.ofNat (a * 4096 + b * 256 + c3 * 16 + d4) :: s, r)
              | none => none
            | _, _, _, _ => none
          | _ => none
        else
          match unescapeChar e with
          | some u =>
            match parseStrAux rest2 with
            | some (s, r) => some (u :: s, r)
            | none => none
          | none => none
    else
      match parseStrAux rest with
      | some (s, r) => some (c :: s, r)
      | none => none

/-- Numeric value of a digit sequence. -/
def digsVal (cs : List Char) : Nat :=
  cs.foldl (fun a c => 10 * a + (c.toNat - 48)) 0

mutual

/-- Recursive-descent JSON parser over a character list, fuelled so that it is
a structural recursion (the fuel bounds the nesting/size of the value).
Returns the parsed value and the unconsumed remainder. -/
def parseVal : Nat → List Char → Option (Json × List Char)
  | 0, _ => none
  | Nat.succ fuel, cs =>
    match skipWs cs with
    | [] => none
    | c :: rest =>
      if c = 'n' then
        match dropLit litNull rest with
        | some r2 => some (Json.null, r2)
        | none => none
      else if c = 't' then
        match dropLit litTrue rest with
        | some r2 => some (Json.bool true, r2)
        | none => none
      else if c = 'f' then
        match dropLit litFalse rest with
        | some r2 => some (Json.bool false, r2)
        | none => none
      else if c = quoteChar then
        match parseStrAux rest with
        | some (s, r2) => some (Json.str (String.mk s), r2)
        | none => none
      else if c = '[' then
        match skipWs rest with
        | [] => none
        | d :: r2 =>
          if d = ']' then some (Json.arr JsonList.nil, r2)
          else
            match parseVal fuel (d :: r2) with
            | some (v, r3) =>
              match parseArrRest fuel r3 with
              | some (vs, r4) => some (Json.arr (JsonList.cons v vs), r4)
              | none => none
            | none => none
      else if c = lbraceChar then
        match skipWs rest with
        | [] => none
        | d :: r2 =>
          if d = rbraceChar then some (Json.obj JsonObj.nil, r2)
          else
            match parseMember fuel (d :: r2) with
            | some (k, v, r3) =>
              match parseObjRest fuel r3 with
              | some (kvs, r4) => some (Json.obj (JsonObj.cons k v kvs), r4)
              | none => none
            | none => none
      else if c = '-' then
        let digs := List.takeWhile Char.isDigit rest
        if digs = [] then none
        else some (Json.num (-(Int.ofNat (digsVal digs))), List.dropWhile Char.isDigit rest)
      else if c.isDigit then
        let digs := List.takeWhile Char.isDigit (c :: rest)
        some (Json.num (Int.ofNat (digsVal digs)), List.dropWhile Char.isDigit (c :: rest))
      else none

/-- Parse the remainder of an array after one element: a comma followed by an
element, repeatedly, until the closing bracket. -/
def parseArrRest : Nat → List Char → Option (JsonList × List Char)
  | 0, _ => none
  | Nat.succ fuel, cs =>
    match skipWs cs with
    | [] => none
    | c :: rest =>
      if c = ',' then
        match parseVal fuel rest with
        | some (v, r2) =>
          match parseArrRest fuel r2 with
          | some (vs, r3) => some (JsonList.cons v vs, r3)
          | none => none
        | none => none
      else if c = ']' then some (JsonList.nil, rest)
      else none

/-- Parse one object member: quoted key, colon, value. -/
def parseMember : Nat → List Char → Option (String × Json × List Char)
  | 0, _ => none
  | Nat.succ fuel, cs =>
    match skipWs cs with
    | [] => none
    | c :: rest =>
      if c = quoteChar then
        match parseStrAux rest with
        | some (k, r2) =>
          match skipWs r2 with
          | [] => none
          | d :: r3 =>
            if d = ':' then
              match parseVal fuel r3 with
              | some (v, r4) => some (String.mk k, v, r4)
              | none => none
            else none
        | none => none
      else none

/-- Parse the remainder of an object after one member. -/
def parseObjRest : Nat → List Char → Option (JsonObj × List Char)
  | 0, _ => none
  | Nat.succ fuel, cs =>
    match skipWs cs with
    | [] => none
    | c :: rest =>
      if c = ',' then
        match parseMember fuel rest with
        | some (k, v, r2) =>
          match parseObjRest fuel r2 with
          | some (kvs, r3) => some (JsonObj.cons k v kvs, r3)
          | none => none
        | none => none
      else if c = rbraceChar then some (JsonObj.nil, rest)
      else none
end

/-- Parse a complete JSON document: one value, then only whitespace. -/
def parseJson (s : String) : Option Json :=
  match parseVal s.length s.toList with
  | some (v, rest) => if skipWs rest = [] then some v else none
  | none => none

/-- The response shape of the webhook, from the `ExtractResponse` interface of
the component: `{ success: boolean; data?: any; status: 'processing' |
'completed' | 'failed' | 'cancelled'; expiresAt?: string; extract_id?:
string }`.  `status` is kept as a string because the code compares it against
string literals and treats every other value as non-terminal. -/
structure ExtractResponse where
  success : Bool
  data : Option Json
  status : String
  expiresAt : Option String
  extract_id : Option String

/-- Append an optional member to an object body. -/
def optField (k : String) (v : Option Json) (t : JsonObj) : JsonObj :=
  match v with
  | some j => JsonObj.cons k j t
  | none => t

/-- The response seen as the JSON object the component would store when it
falls back to `setExtractedData(initialResponse)`; member order follows the
`ExtractResponse` interface declaration, absent optional fields are omitted. -/
def ExtractResponse.toJson (r : ExtractResponse) : Json :=
  Json.obj
    (JsonObj.cons "success" (Json.bool r.success)
      (optField "data" r.data
        (JsonObj.cons "status" (Json.str r.status)
          (optField "expiresAt" (r.expiresAt.map Json.str)
            (optField "extract_id" (r.extract_id.map Json.str) JsonObj.nil)))))

/-- Outcome of one `fetch` of the webhook: a parsed body when `response.ok`,
an `HTTP error! status: N` throw when not, or a rejected promise. -/
inductive FetchResult where
  | ok (body : ExtractResponse)
  | httpError (status : Nat)
  | networkError (msg : String)

/-- The webhook modelled as an oracle: the response to the initial submission
POST and the response to the `i`-th status-check POST. -/
structure Oracle where
  initial : FetchResult
  poll : Nat → FetchResult

/-- Network requests the component can issue (both are POSTs of a JSON body to
the single webhook URL). -/
inductive Request where
  | submit (urls : List String) (prompt : String)
  | statusCheck (action : String) (extract_id : String)

/-- Observable events of one run: requests, the 2-second pauses between polls,
and toasts (`title`, `description`, `variant`; `variant` is `""` when the code
passes no variant). -/
inductive Event where
  | request (r : Request)
  | sleep (ms : Nat)
  | toast (title : String) (description : String) (variant : String)

/-- The body `{ action: 'status_check', extract_id: extractId }` sent by
`pollJobStatus`. -/
def statusCheckBody (extractId : String) : Request :=
  Request.statusCheck "status_check" extractId

/-- The message of the error thrown on a non-ok response:
`HTTP error! status: ${response.status}`. -/
def httpErrMsg (status : Nat) : String :=
  "HTTP error! status: " ++ toString status

/-- The `pollJobStatus` function: one status-check fetch; a non-ok response or
a network failure becomes a thrown error, otherwise the parsed body is
returned.  `i` selects the oracle's response to this (the `i`-th) poll. -/
def pollJobStatus (o : Oracle) (i : Nat) : Except String ExtractResponse :=
  match o.poll i with
  | FetchResult.ok r => Except.ok r
  | FetchResult.httpError code => Except.error (httpErrMsg code)
  | FetchResult.networkError msg => Except.error msg

/-- Result of `waitForCompletion`: the returned `statusResponse.data` on
`completed`, or the message of the propagated error. -/
inductive WaitResult where
  | done (data : Option Json)
  | failed (msg : String)

/-- The `waitForCompletion` polling loop.  Arguments: poll index, fuel,
current `jobStatus` state.  Returns the outcome, the final `jobStatus`, and
the events of the loop (one status-check request per iteration and a 2000 ms
sleep between consecutive iterations), or `none` when the fuel is exhausted
before a terminal response (the real loop never returns in that case). -/
def waitForCompletion (o : Oracle) (extractId : String) : Nat → Nat → String →
    Option (WaitResult × String × List Event)
  | _, 0, _ => none
  | i, Nat.succ fuel, js =>
    let ev := Event.request (statusCheckBody extractId)
    match pollJobStatus o i with
    | Except.error msg => some (WaitResult.failed msg, js, [ev])
    | Except.ok r =>
      if r.status = "completed" then some (WaitResult.done r.data, r.status, [ev])
      else if r.status = "failed" then some (WaitResult.failed "Extraction job failed", r.status, [ev])
      else if r.status = "cancelled" then
        some (WaitResult.failed "Extraction job was cancelled", r.status, [ev])
      else
        match waitForCompletion o extractId (i + 1) fuel r.status with
        | some (res, js2, evs) => some (res, js2, ev :: Event.sleep 2000 :: evs)
        | none => none

/-- Component state touched by `handleExtract` (the `copied` flag is only used
by the clipboard handler and is omitted). -/
structure UIState where
  url : String
  prompt : String
  isLoading : Bool
  extractedData : Option Json
  error : String
  jobStatus : String

/-- The toast shown on every caught error. -/
def failToast (msg : String) : Event :=
  Event.toast "Extraction Failed" msg "destructive"

/-- The toast shown on every successful extraction. -/
def okToast : Event :=
  Event.toast "Extraction Complete" "Data has been successfully extracted from the website" ""

/-- The `catch` block: `setError('Failed to extract data: ' + message)`. -/
def catchErr (s : UIState) (msg : String) : UIState :=
  { s with error := "Failed to extract data: " ++ msg }

/-- The `finally` block: `setIsLoading(false); setJobStatus('')`. -/
def finallyReset (s : UIState) : UIState :=
  { s with isLoading := false, jobStatus := "" }

/-- The fallback value `initialResponse.data || initialResponse`. -/
def fallbackData (r : ExtractResponse) : Json :=
  match r.data with
  | some d => if Json.truthy d then d else ExtractResponse.toJson r
  | none => ExtractResponse.toJson r

/-- The `handleExtract` submit handler of the polling component.  `validURL`
models the host's `new URL(url)` constructor succeeding (an absolute-URL
parse, abstracted as a predicate); `o` is the webhook oracle; `fuel` bounds
the polling loop.  Returns the final state and the event log, or `none` when
the polling loop never reaches a terminal response (in which case the real
handler never returns and `finally` never runs). -/
def handleExtract (validURL : String → Bool) (o : Oracle) (fuel : Nat) (s : UIState) :
    Option (UIState × List Event) :=
  if s.url = "" || s.prompt = "" then
    some (s, [Event.toast "Missing Information"
      "Please provide both a URL and extraction prompt" "destructive"])
  else if !(validURL s.url) then
    some (s, [Event.toast "Invalid URL" "Please enter a valid website URL" "destructive"])
  else
    let s1 : UIState := { s with isLoading := true, error := "", extractedData := none,
                                 jobStatus := "" }
    let submitEv : Event := Event.request (Request.submit [s.url] s.prompt)
    let body : Option (UIState × List Event) :=
      match o.initial with
      | FetchResult.httpError code =>
        some (catchErr s1 (httpErrMsg code), [submitEv, failToast (httpErrMsg code)])
      | FetchResult.networkError msg =>
        some (catchErr s1 msg, [submitEv, failToast msg])
      | FetchResult.ok r =>
        if r.success = false then
          some (catchErr s1 "Failed to start extraction job",
            [submitEv, failToast "Failed to start extraction job"])
        else if r.status = "completed" then
          some ({ s1 with extractedData := r.data }, [submitEv, okToast])
        else
          match r.extract_id with
          | some id =>
            if id = "" then
              some ({ s1 with extractedData := some (fallbackData r) }, [submitEv, okToast])
            else
              match waitForCompletion o id 0 fuel s1.jobStatus with
              | some (WaitResult.done d, js, evs) =>
                some ({ s1 with extractedData := d, jobStatus := js },
                  submitEv :: evs ++ [okToast])
              | some (WaitResult.failed msg, js, evs) =>
                some (catchErr { s1 with jobStatus := js } msg,
                  submitEv :: evs ++ [failToast msg])
              | none => none
          | none =>
            some ({ s1 with extractedData := some (fallbackData r) }, [submitEv, okToast])
    body.map (fun p => (finallyReset p.1, p.2))

/-- Outcome of the single fetch of the non-polling component (the raw parsed
JSON body on success). -/
inductive SimpleFetch where
  | ok (body : Json)
  | httpError (status : Nat)
  | networkError (msg : String)

/-- The `handleExtract` handler of the non-polling component
(`src/src/components/DataExtractor.tsx`): same validation, one fetch, the
whole parsed body stored as the result.  It always terminates, so no fuel. -/
def handleExtractSimple (validURL : String → Bool) (resp : SimpleFetch) (s : UIState) :
    UIState × List Event :=
  if s.url = "" || s.prompt = "" then
    (s, [Event.toast "Missing Information"
      "Please provide both a URL and extraction prompt" "destructive"])
  else if !(validURL s.url) then
    (s, [Event.toast "Invalid URL" "Please enter a valid website URL" "destructive"])
  else
    let s1 : UIState := { s with isLoading := true, error := "", extractedData := none }
    let submitEv : Event := Event.request (Request.submit [s.url] s.prompt)
    let body : UIState × List Event :=
      match resp with
      | SimpleFetch.ok j =>
        ({ s1 with extractedData := some j }, [submitEv, okToast])
      | SimpleFetch.httpError code =>
        (catchErr s1 (httpErrMsg code), [submitEv, failToast (httpErrMsg code)])
      | SimpleFetch.networkError msg =>
        (catchErr s1 msg, [submitEv, failToast msg])
    ({ body.1 with isLoading := false }, body.2)

/-- The string rendered in the results card: shown only when
`extractedData && !isLoading`, with content `JSON.stringify(extractedData,
null, 2)`. -/
def renderResult (s : UIState) : Option String :=
  match s.extractedData with
  | some d => if Json.truthy d && !s.isLoading then some (stringify d) else none
  | none => none

/-- The status-check requests contained in an event log, in order. -/
def statusCheckList (evs : List Event) : List Request :=
  evs.filterMap (fun e =>
    match e with
    | Event.request (Request.statusCheck a i) => some (Request.statusCheck a i)
    | _ => none)

/-- The `i`-th poll response is terminal: a transport failure, or a body whose
status is `completed`, `failed` or `cancelled`. -/
def terminalPoll (o : Oracle) (i : Nat) : Prop :=
  match o.poll i with
  | FetchResult.ok r => r.status = "completed" ∨ r.status = "failed" ∨ r.status = "cancelled"
  | FetchResult.httpError _ => True
  | FetchResult.networkError _ => True

/-- The network requests contained in an event log, in order. -/
def requestsOf (evs : List Event) : List Request :=
  evs.filterMap (fun e =>
    match e with
    | Event.request r => some r
    | _ => none)

/-- A URL validator that accepts everything (used to instantiate theorems at
concrete inputs). -/
def vTrue : String → Bool := fun _ => true

/-- A sample JSON payload exercising objects, arrays, numbers and escapes. -/
def sampleJson : Json :=
  Json.obj (JsonObj.cons "items"
    (Json.arr (JsonList.cons (Json.num 1) (JsonList.cons (Json.num (-25)) JsonList.nil)))
    (JsonObj.cons "note" (Json.str "a\"b") JsonObj.nil))

/-- A component state with a filled-in form. -/
def stateW : UIState :=
  { url := "https://example.com", prompt := "Extract all product names", isLoading := false,
    extractedData := none, error := "", jobStatus := "" }

/-- A component state with an empty URL. -/
def stateBad : UIState :=
  { url := "", prompt := "p", isLoading := false, extractedData := none, error := "",
    jobStatus := "" }

/-- A `processing` response carrying a job id. -/
def procResp : ExtractResponse :=
  { success := true, data := none, status := "processing", expiresAt := none,
    extract_id := some "job-1" }

/-- A `completed` response carrying `sampleJson`. -/
def doneResp : ExtractResponse :=
  { success := true, data := some sampleJson, status := "completed", expiresAt := none,
    extract_id := none }

/-- A `failed` response. -/
def failedResp : ExtractResponse :=
  { success := true, data := none, status := "failed", expiresAt := none, extract_id := none }

/-- A `cancelled` response. -/
def cancelledResp : ExtractResponse :=
  { success := true, data := none, status := "cancelled", expiresAt := none,
    extract_id := none }

/-- A response with `success: false`. -/
def rejectResp : ExtractResponse :=
  { success := false, data := none, status := "processing", expiresAt := none,
    extract_id := none }

/-- A response with truthy data, non-terminal status and no `extract_id`. -/
def fallbackResp : ExtractResponse :=
  { success := true, data := some (Json.str "hello"), status := "processing",
    expiresAt := none, extract_id := none }

/-- Webhook oracle: processing twice, then completed. -/
def oracleSeq : Oracle :=
  { initial := FetchResult.ok procResp,
    poll := fun i => if i < 2 then FetchResult.ok procResp else FetchResult.ok doneResp }

/-- Webhook oracle: immediately completed. -/
def oracleNow : Oracle :=
  { initial := FetchResult.ok doneResp, poll := fun _ => FetchResult.ok doneResp }

/-- Webhook oracle: polls answer `failed`. -/
def oracleFail : Oracle :=
  { initial := FetchResult.ok procResp, poll := fun _ => FetchResult.ok failedResp }

/-- Webhook oracle: polls answer `cancelled`. -/
def oracleCancel : Oracle :=
  { initial := FetchResult.ok procResp, poll := fun _ => FetchResult.ok cancelledResp }

/-- Webhook oracle: the initial submission is rejected. -/
def oracleReject : Oracle :=
  { initial := FetchResult.ok rejectResp, poll := fun _ => FetchResult.ok rejectResp }

/-- Webhook oracle: triggers the no-`extract_id` fallback. -/
def oracleFallback : Oracle :=
  { initial := FetchResult.ok fallbackResp, poll := fun _ => FetchResult.ok fallbackResp }

/-- Webhook oracle: every response is `processing`, forever. -/
def oracleProc : Oracle :=
  { initial := FetchResult.ok procResp, poll := fun _ => FetchResult.ok procResp }

/-- The final state of a run of `handleExtract` against `oracleNow` from
`stateW`. -/
def stateNowResult : UIState :=
  { url := "https://example.com", prompt := "Extract all product names", isLoading := false,
    extractedData := some sampleJson, error := "", jobStatus := "" }

/-- The final state of a run of `handleExtract` against `oracleReject` from
`stateW`. -/
def stateRejectResult : UIState :=
  { url := "https://example.com", prompt := "Extract all product names", isLoading := false,
    extractedData := none,
    error := "Failed to extract data: Failed to start extraction job", jobStatus := "" }

/-- The final state of a run of `handleExtract` against `oracleFallback` from
`stateW`. -/
def stateFallbackResult : UIState :=
  { url := "https://example.com", prompt := "Extract all product names", isLoading := false,
    extractedData := some (Json.str "hello"), error := "", jobStatus := "" }

/-- A character list consisting only of JSON whitespace. -/
def wsOnly (l : List Char) : Prop := ∀ c ∈ l, isWs c = true

/-- The remainder a printed value may be followed by without changing how the
parser reads the value: anything not starting with a digit (digits could
extend a printed number). -/
def restOk : List Char → Prop
  | [] => True
  | c :: _ => c.isDigit = false

theorem skipWs_cons_ws {c : Char} (h : isWs c = true) (l : List Char) :
    skipWs (c :: l) = skipWs l := by
  simp [skipWs, List.dropWhile, h]

theorem skipWs_cons_not_ws {c : Char} (h : isWs c = false) (l : List Char) :
    skipWs (c :: l) = c :: l := by
  simp [skipWs, List.dropWhile, h]

theorem skipWs_wsOnly_append {pre : List Char} (h : wsOnly pre) (l : List Char) :
    skipWs (pre ++ l) = skipWs l := by
  induction pre with
  | nil => rfl
  | cons c cs ih =>
    have hc : isWs c = true := h c (List.mem_cons_self c cs)
    have hcs : wsOnly cs := fun d hd => h d (List.mem_cons_of_mem c hd)
    simp only [List.cons_append, skipWs_cons_ws hc, ih hcs]

theorem wsOnly_nil : wsOnly [] := by
  intro c hc
  cases hc

theorem wsOnly_spaces (n : Nat) : wsOnly (spacesChars n) := by
  intro c hc
  have : c = ' ' := List.eq_of_mem_replicate hc
  subst this
  decide

theorem wsOnly_nl_spaces (n : Nat) : wsOnly (nlChar :: spacesChars n) := by
  intro c hc
  rcases List.mem_cons.mp hc with h | h
  · subst h; decide
  · exact wsOnly_spaces n c h

theorem wsOnly_single_space : wsOnly [ ' ' ] := by
  intro c hc
  rcases List.mem_cons.mp hc with h | h
  · subst h; decide
  · cases h

theorem dropLit_self : ∀ (ls cs : List Char), dropLit ls (ls ++ cs) = some cs := by
  intro ls
  induction ls with
  | nil => intro cs; rfl
  | cons l ls ih => intro cs; simp [dropLit, ih]

theorem hexDigVal_hexDigitChar : ∀ m : Nat, m < 16 → hexDigVal (hexDigitChar m) = some m := by
  decide

/-- Every escape the serialiser produces is either a plain copy, a
two-character escape that `unescapeChar` undoes, or a `\u00XX` escape. -/
theorem escapeChar_cases (c : Char) :
    (escapeChar c = [c] ∧ c ≠ quoteChar ∧ c ≠ backslashChar) ∨
    (∃ e, escapeChar c = [backslashChar, e] ∧ unescapeChar e = some c ∧ e ≠ 'u') ∨
    (c.toNat < 32 ∧
      escapeChar c = [backslashChar, 'u', '0', '0',
        hexDigitChar (c.toNat / 16), hexDigitChar (c.toNat % 16)]) := by
  unfold escapeChar
  split
  · next h => subst h; exact Or.inr (Or.inl ⟨quoteChar, rfl, by decide, by decide⟩)
  · split
    · next h => subst h; exact Or.inr (Or.inl ⟨backslashChar, rfl, by decide, by decide⟩)
    · split
      · next h => subst h; exact Or.inr (Or.inl ⟨'n', rfl, by decide, by decide⟩)
      · split
        · next h => subst h; exact Or.inr (Or.inl ⟨'r', rfl, by decide, by decide⟩)
        · split
          · next h => subst h; exact Or.inr (Or.inl ⟨'t', rfl, by decide, by decide⟩)
          · split
            · next h => subst h; exact Or.inr (Or.inl ⟨'b', rfl, by decide, by decide⟩)
            · split
              · next h => subst h; exact Or.inr (Or.inl ⟨'f', rfl, by decide, by decide⟩)
              · split
                · next h => exact Or.inr (Or.inr ⟨h, rfl⟩)
                · next h1 h2 h3 h4 h5 h6 h7 h8 => exact Or.inl ⟨rfl, h1, h2⟩

theorem parseStrAux_quote (tail : List Char) :
    parseStrAux (quoteChar :: tail) = some ([], tail) := by
  rw [parseStrAux.eq_def]
  simp

theorem parseStrAux_copy {c : Char} (hq : c ≠ quoteChar) (hb : c ≠ backslashChar)
    (rest : List Char) :
    parseStrAux (c :: rest) =
      match parseStrAux rest with
      | some (s, r) => some (c :: s, r)
      | none => none := by
  rw [parseStrAux.eq_def]
  simp [hq, hb]

theorem parseStrAux_esc {e : Char} (hne : e ≠ 'u') (rest : List Char) :
    parseStrAux (backslashChar :: e :: rest) =
      match unescapeChar e with
      | some u =>
        match parseStrAux rest with
        | some (s, r) => some (u :: s, r)
        | none => none
      | none => none := by
  rw [parseStrAux.eq_def]
  simp [hne, (by decide : ¬ (backslashChar = quoteChar))]

theorem parseStrAux_u (h1 h2 h3 h4 : Char) (rest : List Char) :
    parseStrAux (backslashChar :: 'u' :: h1 :: h2 :: h3 :: h4 :: rest) =
      match hexDigVal h1, hexDigVal h2, hexDigVal h3, hexDigVal h4 with
      | some a, some b, some c3, some d4 =>
        match parseStrAux rest with
        | some (s, r) => some (Char.ofNat (a * 4096 + b * 256 + c3 * 16 + d4) :: s, r)
        | none => none
      | _, _, _, _ => none := by
  rw [parseStrAux.eq_def]
  simp [(by decide : ¬ (backslashChar = quoteChar))]

theorem parseStr_escape : ∀ (cs tail : List Char),
    parseStrAux (escapeChars cs ++ (quoteChar :: tail)) = some (cs, tail) := by
  intro cs
  induction cs with
  | nil =>
    intro tail
    simp [escapeChars, parseStrAux_quote]
  | cons c cs ih =>
    intro tail
    rcases escapeChar_cases c with ⟨h1, hq, hb⟩ | ⟨e, he, hu, hne⟩ | ⟨hlt, h1⟩
    · rw [escapeChars, h1]
      simp only [List.cons_append, List.nil_append]
      rw [parseStrAux_copy hq hb, ih]
    · rw [escapeChars, he]
      simp only [List.cons_append, List.nil_append, List.append_assoc]
      rw [parseStrAux_esc hne, hu, ih]
    · rw [escapeChars, h1]
      simp only [List.cons_append, List.nil_append, List.append_assoc]
      rw [parseStrAux_u, hexDigVal_hexDigitChar (c.toNat / 16) (by omega),
          hexDigVal_hexDigitChar (c.toNat % 16) (by omega),
          (by decide : hexDigVal '0' = some 0), ih]
      have hv : 0 * 4096 + 0 * 256 + c.toNat / 16 * 16 + c.toNat % 16 = c.toNat := by omega
      simp only [hv, Char.ofNat_toNat]

theorem digitChar_isDigit : ∀ m : Nat, m < 10 → (digitChar m).isDigit = true := by
  decide

theorem digitChar_toNat : ∀ m : Nat, m < 10 → (digitChar m).toNat = 48 + m := by
  decide

theorem digitChar_not_ws : ∀ m : Nat, m < 10 → isWs (digitChar m) = false := by
  decide

theorem digitChar_ne_rbrack : ∀ m : Nat, m < 10 → digitChar m ≠ ']' := by
  decide

theorem natDigitsAux_mem : ∀ (fuel n : Nat), n < fuel → ∀ c ∈ natDigitsAux fuel n,
    ∃ m, m < 10 ∧ c = digitChar m := by
  intro fuel
  induction fuel with
  | zero => intro n h; omega
  | succ fuel ih =>
    intro n h c hc
    rw [natDigitsAux] at hc
    by_cases h10 : n < 10
    · rw [if_pos h10] at hc
      rcases List.mem_cons.mp hc with h1 | h1
      · exact ⟨n, h10, h1⟩
      · cases h1
    · rw [if_neg h10] at hc
      rcases List.mem_append.mp hc with h1 | h1
      · exact ih (n / 10) (by omega) c h1
      · rcases List.mem_cons.mp h1 with h2 | h2
        · exact ⟨n % 10, by omega, h2⟩
        · cases h2

theorem natDigits_all_digits : ∀ (n : Nat), ∀ c ∈ natDigits n, c.isDigit = true := by
  intro n c hc
  obtain ⟨m, hm, rfl⟩ := natDigitsAux_mem (n + 1) n (by omega) c hc
  exact digitChar_isDigit m hm

theorem natDigitsAux_ne_nil (fuel n : Nat) (h : n < fuel) : natDigitsAux fuel n ≠ [] := by
  cases fuel with
  | zero => omega
  | succ fuel =>
    rw [natDigitsAux]
    by_cases h10 : n < 10
    · rw [if_pos h10]; simp
    · rw [if_neg h10]; simp

theorem natDigits_ne_nil (n : Nat) : natDigits n ≠ [] :=
  natDigitsAux_ne_nil (n + 1) n (by omega)

theorem digsVal_from : ∀ (fuel n a : Nat), n < fuel →
    List.foldl (fun x c => 10 * x + (c.toNat - 48)) a (natDigitsAux fuel n) =
      a * 10 ^ (natDigitsAux fuel n).length + n := by
  intro fuel
  induction fuel with
  | zero => intro n a h; omega
  | succ fuel ih =>
    intro n a h
    rw [natDigitsAux]
    by_cases h10 : n < 10
    · rw [if_pos h10]
      simp [digitChar_toNat n h10]
      omega
    · rw [if_neg h10]
      rw [List.foldl_append, ih (n / 10) a (by omega)]
      simp [digitChar_toNat (n % 10) (by omega : n % 10 < 10), List.length_append]
      ring_nf
      omega

theorem digsVal_natDigits (n : Nat) : digsVal (natDigits n) = n := by
  rw [digsVal, natDigits, digsVal_from (n + 1) n 0 (by omega)]
  simp

theorem takeWhile_digits_append : ∀ (l1 l2 : List Char),
    (∀ c ∈ l1, c.isDigit = true) → restOk l2 →
    List.takeWhile Char.isDigit (l1 ++ l2) = l1 ∧
      List.dropWhile Char.isDigit (l1 ++ l2) = l2 := by
  intro l1
  induction l1 with
  | nil =>
    intro l2 _ h2
    cases l2 with
    | nil => exact ⟨rfl, rfl⟩
    | cons c t =>
      have hc : c.isDigit = false := h2
      constructor
      · simp [List.takeWhile, hc]
      · simp [List.dropWhile, hc]
  | cons c l1 ih =>
    intro l2 h1 h2
    have hc : c.isDigit = true := h1 c (List.mem_cons_self c l1)
    have h1t : ∀ x ∈ l1, x.isDigit = true := fun x hx => h1 x (List.mem_cons_of_mem c hx)
    obtain ⟨ht, hd⟩ := ih l2 h1t h2
    constructor
    · simp [List.takeWhile, hc, ht]
    · simp [List.dropWhile, hc, hd]

theorem natDigits_head : ∀ (n : Nat), ∃ m t, m < 10 ∧ natDigits n = digitChar m :: t := by
  intro n
  cases h : natDigits n with
  | nil => exact absurd h (natDigits_ne_nil n)
  | cons c t =>
    have hc : c ∈ natDigits n := by rw [h]; exact List.mem_cons_self c t
    obtain ⟨m, hm, rfl⟩ := natDigitsAux_mem (n + 1) n (by omega) c hc
    exact ⟨m, t, hm, rfl⟩

/-- Every printed JSON value starts with a non-whitespace character that is
not a closing bracket. -/
theorem printVal_head (d : Nat) (v : Json) :
    ∃ c t, printVal d v = c :: t ∧ isWs c = false ∧ c ≠ ']' := by
  cases v with
  | null => exact ⟨'n', litNull, rfl, by decide, by decide⟩
  | bool b =>
    cases b with
    | true => exact ⟨'t', litTrue, rfl, by decide, by decide⟩
    | false => exact ⟨'f', litFalse, rfl, by decide, by decide⟩
  | num n =>
    rw [printVal, intChars]
    by_cases hn : n < 0
    · rw [if_pos hn]
      exact ⟨'-', natDigits n.natAbs, rfl, by decide, by decide⟩
    · rw [if_neg hn]
      obtain ⟨m, t, hm, hd⟩ := natDigits_head n.toNat
      exact ⟨digitChar m, t, hd, digitChar_not_ws m hm, digitChar_ne_rbrack m hm⟩
  | str s => exact ⟨quoteChar, escapeChars s.toList ++ [quoteChar], rfl, by decide, by decide⟩
  | arr xs =>
    cases xs with
    | nil => exact ⟨'[', [ ']' ], rfl, by decide, by decide⟩
    | cons x t =>
      exact ⟨'[', nlChar :: (spacesChars (d + 2) ++ (printVal (d + 2) x ++
        (printListRest (d + 2) t ++ ((nlChar :: spacesChars d) ++ [ ']' ])))),
        rfl, by decide, by decide⟩
  | obj kvs =>
    cases kvs with
    | nil => exact ⟨lbraceChar, [rbraceChar], rfl, by decide, by decide⟩
    | cons k v t =>
      exact ⟨lbraceChar, nlChar :: (spacesChars (d + 2) ++ (keyChars k ++ (printVal (d + 2) v ++
        (printObjRest (d + 2) t ++ ((nlChar :: spacesChars d) ++ [rbraceChar]))))),
        rfl, by decide, by decide⟩

/-- The tail that follows an element inside a printed array or object starts
with a comma, whitespace or closing bracket, never a digit. -/
theorem restOk_listRest (d : Nat) (xs : JsonList) (pre rest : List Char) (hpre : wsOnly pre) :
    restOk (printListRest d xs ++ (pre ++ (']' :: rest))) := by
  cases xs with
  | nil =>
    cases pre with
    | nil => exact (by decide : Char.isDigit ']' = false)
    | cons p t =>
      have hp : isWs p = true := hpre p (List.mem_cons_self p t)
      show p.isDigit = false
      revert hp
      rw [isWs]
      intro hp
      rcases Bool.or_eq_true_iff.mp hp with h | h
      · rcases Bool.or_eq_true_iff.mp h with h2 | h2
        · rcases Bool.or_eq_true_iff.mp h2 with h3 | h3
          · rw [decide_eq_true_iff] at h3; subst h3; decide
          · rw [decide_eq_true_iff] at h3; subst h3; decide
        · rw [decide_eq_true_iff] at h2; subst h2; decide
      · rw [decide_eq_true_iff] at h; subst h; decide
  | cons x t =>
    show Char.isDigit ',' = false
    decide

theorem restOk_objRest (d : Nat) (kvs : JsonObj) (pre rest : List Char) (hpre : wsOnly pre) :
    restOk (printObjRest d kvs ++ (pre ++ (rbraceChar :: rest))) := by
  cases kvs with
  | nil =>
    cases pre with
    | nil => exact (by decide : Char.isDigit rbraceChar = false)
    | cons p t =>
      have hp : isWs p = true := hpre p (List.mem_cons_self p t)
      show p.isDigit = false
      revert hp
      rw [isWs]
      intro hp
      rcases Bool.or_eq_true_iff.mp hp with h | h
      · rcases Bool.or_eq_true_iff.mp h with h2 | h2
        · rcases Bool.or_eq_true_iff.mp h2 with h3 | h3
          · rw [decide_eq_true_iff] at h3; subst h3; decide
          · rw [decide_eq_true_iff] at h3; subst h3; decide
        · rw [decide_eq_true_iff] at h2; subst h2; decide
      · rw [decide_eq_true_iff] at h; subst h; decide
  | cons k v t =>
    show Char.isDigit ',' = false
    decide

theorem string_eta (s : String) : String.mk s.data = s := by cases s; rfl

theorem jsize_pos (v : Json) : 0 < jsize v := by
  cases v <;> simp [jsize]

theorem jsizeL_pos (xs : JsonList) : 0 < jsizeL xs := by
  cases xs <;> simp [jsizeL]

theorem jsizeO_pos (kvs : JsonObj) : 0 < jsizeO kvs := by
  cases kvs <;> simp [jsizeO]

theorem digitChar_ne_markers : ∀ m : Nat, m < 10 →
    digitChar m ≠ 'n' ∧ digitChar m ≠ 't' ∧ digitChar m ≠ 'f' ∧ digitChar m ≠ quoteChar ∧
    digitChar m ≠ '[' ∧ digitChar m ≠ lbraceChar ∧ digitChar m ≠ '-' := by
  decide

theorem parse_print_all : ∀ fuel : Nat,
    (∀ (v : Json) (d : Nat) (pre rest : List Char), jsize v ≤ fuel → wsOnly pre → restOk rest →
      parseVal fuel (pre ++ (printVal d v ++ rest)) = some (v, rest)) ∧
    (∀ (xs : JsonList) (d : Nat) (pre rest : List Char), jsizeL xs ≤ fuel → wsOnly pre →
      parseArrRest fuel (printListRest d xs ++ (pre ++ (']' :: rest))) = some (xs, rest)) ∧
    (∀ (k : String) (v : Json) (d : Nat) (pre rest : List Char), jsize v + 1 ≤ fuel →
      wsOnly pre → restOk rest →
      parseMember fuel (pre ++ (keyChars k ++ (printVal d v ++ rest))) = some (k, v, rest)) ∧
    (∀ (kvs : JsonObj) (d : Nat) (pre rest : List Char), jsizeO kvs ≤ fuel → wsOnly pre →
      parseObjRest fuel (printObjRest d kvs ++ (pre ++ (rbraceChar :: rest))) = some (kvs, rest)) := by
  intro fuel
  induction fuel with
  | zero =>
    refine ⟨?_, ?_, ?_, ?_⟩
    · intro v d pre rest hsz _ _
      have := jsize_pos v
      omega
    · intro xs d pre rest hsz _
      have := jsizeL_pos xs
      omega
    · intro k v d pre rest hsz _ _
      omega
    · intro kvs d pre rest hsz _
      have := jsizeO_pos kvs
      omega
  | succ fuel ih =>
    obtain ⟨ih1, ih2, ih3, ih4⟩ := ih
    refine ⟨?_, ?_, ?_, ?_⟩
    · -- parseVal
      intro v d pre rest hsz hpre hrest
      cases v with
      | null =>
        have hsk : skipWs (pre ++ (printVal d Json.null ++ rest)) = 'n' :: (litNull ++ rest) := by
          rw [skipWs_wsOnly_append hpre]
          simp only [printVal, List.cons_append]
          exact skipWs_cons_not_ws (by decide) _
        rw [parseVal, hsk]
        simp [dropLit_self]
      | bool b =>
        cases b with
        | true =>
          have hsk : skipWs (pre ++ (printVal d (Json.bool true) ++ rest)) =
              't' :: (litTrue ++ rest) := by
            rw [skipWs_wsOnly_append hpre]
            simp only [printVal, List.cons_append, if_pos rfl]
            exact skipWs_cons_not_ws (by decide) _
          rw [parseVal, hsk]
          simp [dropLit_self]
        | false =>
          have hsk : skipWs (pre ++ (printVal d (Json.bool false) ++ rest)) =
              'f' :: (litFalse ++ rest) := by
            rw [skipWs_wsOnly_append hpre]
            simp only [printVal, List.cons_append]
            exact skipWs_cons_not_ws (by decide) _
          rw [parseVal, hsk]
          simp [dropLit_self]
      | num n =>
        by_cases hn : n < 0
        · have hpr : printVal d (Json.num n) = '-' :: natDigits n.natAbs := by
            rw [printVal, intChars, if_pos hn]
          have hsk : skipWs (pre ++ (printVal d (Json.num n) ++ rest)) =
              '-' :: (natDigits n.natAbs ++ rest) := by
            rw [skipWs_wsOnly_append hpre, hpr]
            simp only [List.cons_append]
            exact skipWs_cons_not_ws (by decide) _
          obtain ⟨htake, hdrop⟩ :=
            takeWhile_digits_append (natDigits n.natAbs) rest (natDigits_all_digits _) hrest
          have hv2 : -(|n| : Int) = n := by
            rw [abs_of_neg hn, neg_neg]
          rw [parseVal, hsk]
          simp [htake, hdrop, natDigits_ne_nil, digsVal_natDigits, hv2,
            (by decide : ¬ ('-' = quoteChar)), (by decide : ¬ ('-' = lbraceChar))]
        · have hpr : printVal d (Json.num n) = natDigits n.toNat := by
            rw [printVal, intChars, if_neg hn]
          obtain ⟨m, t, hm, hd⟩ := natDigits_head n.toNat
          obtain ⟨hne1, hne2, hne3, hne4, hne5, hne6, hne7⟩ := digitChar_ne_markers m hm
          have hsk : skipWs (pre ++ (printVal d (Json.num n) ++ rest)) =
              digitChar m :: (t ++ rest) := by
            rw [skipWs_wsOnly_append hpre, hpr, hd]
            simp only [List.cons_append]
            exact skipWs_cons_not_ws (digitChar_not_ws m hm) _
          obtain ⟨htake, hdrop⟩ :=
            takeWhile_digits_append (natDigits n.toNat) rest (natDigits_all_digits _) hrest
          rw [hd] at htake hdrop
          simp only [List.cons_append] at htake hdrop
          have hv2 : (n.toNat : Int) = n := by omega
          rw [parseVal, hsk]
          simp [hne1, hne2, hne3, hne4, hne5, hne6, hne7, digitChar_isDigit m hm,
            htake, hdrop, ← hd, digsVal_natDigits, hv2]
      | str s =>
        have hsk : skipWs (pre ++ (printVal d (Json.str s) ++ rest)) =
            quoteChar :: (escapeChars s.toList ++ (quoteChar :: rest)) := by
          rw [skipWs_wsOnly_append hpre]
          simp only [printVal, List.cons_append, List.append_assoc]
          exact skipWs_cons_not_ws (by decide) _
        rw [parseVal, hsk]
        simp [parseStr_escape, (by decide : ¬ (quoteChar = 'n')),
          (by decide : ¬ (quoteChar = 't')), (by decide : ¬ (quoteChar = 'f')), string_eta]
      | arr xs =>
        cases xs with
        | nil =>
          have hsk : skipWs (pre ++ (printVal d (Json.arr JsonList.nil) ++ rest)) =
              '[' :: (']' :: rest) := by
            rw [skipWs_wsOnly_append hpre]
            simp only [printVal, List.cons_append]
            exact skipWs_cons_not_ws (by decide) _
          rw [parseVal, hsk]
          simp [skipWs_cons_not_ws (show isWs ']' = false by decide),
            (by decide : ¬ ('[' = 'n')), (by decide : ¬ ('[' = 't')),
            (by decide : ¬ ('[' = 'f')), (by decide : ¬ ('[' = quoteChar))]
        | cons x xs =>
          have hszx : jsize x ≤ fuel ∧ jsizeL xs ≤ fuel := by
            simp [jsize, jsizeL] at hsz
            omega
          obtain ⟨c0, t0, hx, hxw, hxb⟩ := printVal_head (d + 2) x
          have hsk : skipWs (pre ++ (printVal d (Json.arr (JsonList.cons x xs)) ++ rest)) =
              '[' :: (nlChar :: (spacesChars (d + 2) ++ (printVal (d + 2) x ++
                (printListRest (d + 2) xs ++ (nlChar :: (spacesChars d ++ (']' :: rest))))))) := by
            rw [skipWs_wsOnly_append hpre]
            simp only [printVal, List.cons_append, List.append_assoc, List.nil_append]
            exact skipWs_cons_not_ws (by decide) _
          have hsk2 : skipWs (nlChar :: (spacesChars (d + 2) ++ (printVal (d + 2) x ++
              (printListRest (d + 2) xs ++ (nlChar :: (spacesChars d ++ (']' :: rest))))))) =
              c0 :: (t0 ++ (printListRest (d + 2) xs ++
                (nlChar :: (spacesChars d ++ (']' :: rest))))) := by
            rw [skipWs_cons_ws (show isWs nlChar = true by decide),
              skipWs_wsOnly_append (wsOnly_spaces _), hx]
            simp only [List.cons_append]
            exact skipWs_cons_not_ws hxw _
          have hrest2 : restOk (printListRest (d + 2) xs ++
              (nlChar :: (spacesChars d ++ (']' :: rest)))) := by
            have := restOk_listRest (d + 2) xs (nlChar :: spacesChars d) rest (wsOnly_nl_spaces d)
            simpa using this
          have hval : parseVal fuel (c0 :: (t0 ++ (printListRest (d + 2) xs ++
              (nlChar :: (spacesChars d ++ (']' :: rest)))))) =
              some (x, printListRest (d + 2) xs ++
                (nlChar :: (spacesChars d ++ (']' :: rest)))) := by
            have happ : c0 :: (t0 ++ (printListRest (d + 2) xs ++
                (nlChar :: (spacesChars d ++ (']' :: rest))))) =
                [] ++ (printVal (d + 2) x ++ (printListRest (d + 2) xs ++
                  (nlChar :: (spacesChars d ++ (']' :: rest))))) := by
              rw [hx]
              simp
            rw [happ]
            exact ih1 x (d + 2) [] _ hszx.1 wsOnly_nil hrest2
          have harr : parseArrRest fuel (printListRest (d + 2) xs ++
              (nlChar :: (spacesChars d ++ (']' :: rest)))) = some (xs, rest) := by
            have := ih2 xs (d + 2) (nlChar :: spacesChars d) rest hszx.2 (wsOnly_nl_spaces d)
            simpa using this
          rw [parseVal, hsk]
          simp [hsk2, hxb, hval, harr, (by decide : ¬ ('[' = 'n')), (by decide : ¬ ('[' = 't')),
            (by decide : ¬ ('[' = 'f')), (by decide : ¬ ('[' = quoteChar))]
      | obj kvs =>
        cases kvs with
        | nil =>
          have hsk : skipWs (pre ++ (printVal d (Json.obj JsonObj.nil) ++ rest)) =
              lbraceChar :: (rbraceChar :: rest) := by
            rw [skipWs_wsOnly_append hpre]
            simp only [printVal, List.cons_append]
            exact skipWs_cons_not_ws (by decide) _
          rw [parseVal, hsk]
          simp [skipWs_cons_not_ws (show isWs rbraceChar = false by decide),
            (by decide : ¬ (lbraceChar = 'n')), (by decide : ¬ (lbraceChar = 't')),
            (by decide : ¬ (lbraceChar = 'f')), (by decide : ¬ (lbraceChar = quoteChar)),
            (by decide : ¬ (lbraceChar = '['))]
        | cons k v kvs =>
          have hszv : jsize v + 1 ≤ fuel ∧ jsizeO kvs ≤ fuel := by
            have := jsizeO_pos kvs
            simp [jsize, jsizeO] at hsz
            omega
          have hsk : skipWs (pre ++ (printVal d (Json.obj (JsonObj.cons k v kvs)) ++ rest)) =
              lbraceChar :: (nlChar :: (spacesChars (d + 2) ++ (keyChars k ++
                (printVal (d + 2) v ++ (printObjRest (d + 2) kvs ++
                  (nlChar :: (spacesChars d ++ (rbraceChar :: rest)))))))) := by
            rw [skipWs_wsOnly_append hpre]
            simp only [printVal, List.cons_append, List.append_assoc, List.nil_append]
            exact skipWs_cons_not_ws (by decide) _
          have hsk2 : skipWs (nlChar :: (spacesChars (d + 2) ++ (keyChars k ++
              (printVal (d + 2) v ++ (printObjRest (d + 2) kvs ++
                (nlChar :: (spacesChars d ++ (rbraceChar :: rest)))))))) =
              quoteChar :: ((escapeChars k.toList ++ [quoteChar, ':', ' ']) ++
                (printVal (d + 2) v ++ (printObjRest (d + 2) kvs ++
                  (nlChar :: (spacesChars d ++ (rbraceChar :: rest)))))) := by
            rw [skipWs_cons_ws (show isWs nlChar = true by decide),
              skipWs_wsOnly_append (wsOnly_spaces _), keyChars]
            simp only [List.cons_append]
            exact skipWs_cons_not_ws (by decide) _
          have hrest2 : restOk (printObjRest (d + 2) kvs ++
              (nlChar :: (spacesChars d ++ (rbraceChar :: rest)))) := by
            have := restOk_objRest (d + 2) kvs (nlChar :: spacesChars d) rest (wsOnly_nl_spaces d)
            simpa using this
          have hmem : parseMember fuel (quoteChar :: ((escapeChars k.toList ++
              [quoteChar, ':', ' ']) ++ (printVal (d + 2) v ++ (printObjRest (d + 2) kvs ++
                (nlChar :: (spacesChars d ++ (rbraceChar :: rest))))))) =
              some (k, v, printObjRest (d + 2) kvs ++
                (nlChar :: (spacesChars d ++ (rbraceChar :: rest)))) := by
            have happ : quoteChar :: ((escapeChars k.toList ++ [quoteChar, ':', ' ']) ++
                (printVal (d + 2) v ++ (printObjRest (d + 2) kvs ++
                  (nlChar :: (spacesChars d ++ (rbraceChar :: rest)))))) =
                [] ++ (keyChars k ++ (printVal (d + 2) v ++ (printObjRest (d + 2) kvs ++
                  (nlChar :: (spacesChars d ++ (rbraceChar :: rest)))))) := by
              rw [keyChars]
              simp
            rw [happ]
            exact ih3 k v (d + 2) [] _ hszv.1 wsOnly_nil hrest2
          simp only [List.append_assoc, List.cons_append, List.nil_append, String.toList] at hmem
          have hobj : parseObjRest fuel (printObjRest (d + 2) kvs ++
              (nlChar :: (spacesChars d ++ (rbraceChar :: rest)))) = some (kvs, rest) := by
            have := ih4 kvs (d + 2) (nlChar :: spacesChars d) rest hszv.2 (wsOnly_nl_spaces d)
            simpa using this
          rw [parseVal, hsk]
          simp [hsk2, hmem, hobj, (by decide : ¬ (lbraceChar = 'n')),
            (by decide : ¬ (lbraceChar = 't')), (by decide : ¬ (lbraceChar = 'f')),
            (by decide : ¬ (lbraceChar = quoteChar)), (by decide : ¬ (lbraceChar = '[')),
            (by decide : ¬ (quoteChar = rbraceChar))]
    · -- parseArrRest
      intro xs d pre rest hsz hpre
      cases xs with
      | nil =>
        have hsk : skipWs (printListRest d JsonList.nil ++ (pre ++ (']' :: rest))) =
            ']' :: rest := by
          rw [printListRest, List.nil_append, skipWs_wsOnly_append hpre]
          exact skipWs_cons_not_ws (by decide) _
        rw [parseArrRest, hsk]
        simp [(by decide : ¬ (']' = ','))]
      | cons x xs =>
        have hszx : jsize x ≤ fuel ∧ jsizeL xs ≤ fuel := by
          simp [jsizeL] at hsz
          omega
        have hsk : skipWs (printListRest d (JsonList.cons x xs) ++ (pre ++ (']' :: rest))) =
            ',' :: (nlChar :: (spacesChars d ++ (printVal d x ++ (printListRest d xs ++
              (pre ++ (']' :: rest)))))) := by
          rw [printListRest]
          simp only [List.cons_append, List.append_assoc]
          exact skipWs_cons_not_ws (by decide) _
        have hrest2 : restOk (printListRest d xs ++ (pre ++ (']' :: rest))) :=
          restOk_listRest d xs pre rest hpre
        have hval : parseVal fuel (nlChar :: (spacesChars d ++ (printVal d x ++
            (printListRest d xs ++ (pre ++ (']' :: rest)))))) =
            some (x, printListRest d xs ++ (pre ++ (']' :: rest))) := by
          have := ih1 x d (nlChar :: spacesChars d) (printListRest d xs ++ (pre ++ (']' :: rest)))
            hszx.1 (wsOnly_nl_spaces d) hrest2
          simpa using this
        have harr : parseArrRest fuel (printListRest d xs ++ (pre ++ (']' :: rest))) =
            some (xs, rest) := ih2 xs d pre rest hszx.2 hpre
        rw [parseArrRest, hsk]
        simp [hval, harr]
    · -- parseMember
      intro k v d pre rest hsz hpre hrest
      have hsk : skipWs (pre ++ (keyChars k ++ (printVal d v ++ rest))) =
          quoteChar :: (escapeChars k.toList ++ (quoteChar :: (':' :: (' ' ::
            (printVal d v ++ rest))))) := by
        rw [skipWs_wsOnly_append hpre, keyChars]
        simp only [List.cons_append, List.append_assoc]
        exact skipWs_cons_not_ws (by decide) _
      have hval : parseVal fuel (' ' :: (printVal d v ++ rest)) = some (v, rest) := by
        have := ih1 v d [ ' ' ] rest (by omega) wsOnly_single_space hrest
        simpa using this
      rw [parseMember, hsk]
      simp [parseStr_escape, skipWs_cons_not_ws (show isWs ':' = false by decide),
        hval, string_eta]
    · -- parseObjRest
      intro kvs d pre rest hsz hpre
      cases kvs with
      | nil =>
        have hsk : skipWs (printObjRest d JsonObj.nil ++ (pre ++ (rbraceChar :: rest))) =
            rbraceChar :: rest := by
          rw [printObjRest, List.nil_append, skipWs_wsOnly_append hpre]
          exact skipWs_cons_not_ws (by decide) _
        rw [parseObjRest, hsk]
        simp [(by decide : ¬ (rbraceChar = ','))]
      | cons k v kvs =>
        have hszv : jsize v + 1 ≤ fuel ∧ jsizeO kvs ≤ fuel := by
          have := jsizeO_pos kvs
          simp [jsizeO] at hsz
          omega
        have hsk : skipWs (printObjRest d (JsonObj.cons k v kvs) ++
            (pre ++ (rbraceChar :: rest))) =
            ',' :: (nlChar :: (spacesChars d ++ (keyChars k ++ (printVal d v ++
              (printObjRest d kvs ++ (pre ++ (rbraceChar :: rest))))))) := by
          rw [printObjRest]
          simp only [List.cons_append, List.append_assoc]
          exact skipWs_cons_not_ws (by decide) _
        have hrest2 : restOk (printObjRest d kvs ++ (pre ++ (rbraceChar :: rest))) :=
          restOk_objRest d kvs pre rest hpre
        have hmem : parseMember fuel (nlChar :: (spacesChars d ++ (keyChars k ++
            (printVal d v ++ (printObjRest d kvs ++ (pre ++ (rbraceChar :: rest))))))) =
            some (k, v, printObjRest d kvs ++ (pre ++ (rbraceChar :: rest))) := by
          have := ih3 k v d (nlChar :: spacesChars d)
            (printObjRest d kvs ++ (pre ++ (rbraceChar :: rest))) hszv.1
            (wsOnly_nl_spaces d) hrest2
          simpa using this
        have hobj : parseObjRest fuel (printObjRest d kvs ++ (pre ++ (rbraceChar :: rest))) =
            some (kvs, rest) := ih4 kvs d pre rest hszv.2 hpre
        rw [parseObjRest, hsk]
        simp [hmem, hobj]

mutual

theorem jsize_le_printVal_length : ∀ (d : Nat) (v : Json), jsize v ≤ (printVal d v).length
  | _, Json.null => by simp [jsize, printVal, litNull]
  | _, Json.bool b => by cases b <;> simp [jsize, printVal, litTrue, litFalse]
  | _, Json.num n => by
    rw [jsize, printVal, intChars]
    by_cases hn : n < 0
    · rw [if_pos hn]
      simp
    · rw [if_neg hn]
      have := List.length_pos.mpr (natDigits_ne_nil n.toNat)
      omega
  | _, Json.str s => by simp [jsize, printVal]
  | _, Json.arr JsonList.nil => by simp [jsize, jsizeL, printVal]
  | d, Json.arr (JsonList.cons x xs) => by
    have h1 := jsize_le_printVal_length (d + 2) x
    have h2 := jsizeL_le_printListRest_length (d + 2) xs
    simp [jsize, jsizeL, printVal, List.length_append, spacesChars]
    omega
  | _, Json.obj JsonObj.nil => by simp [jsize, jsizeO, printVal]
  | d, Json.obj (JsonObj.cons k v kvs) => by
    have h1 := jsize_le_printVal_length (d + 2) v
    have h2 := jsizeO_le_printObjRest_length (d + 2) kvs
    simp [jsize, jsizeO, printVal, keyChars, List.length_append, spacesChars]
    omega

theorem jsizeL_le_printListRest_length : ∀ (d : Nat) (xs : JsonList),
    jsizeL xs ≤ (printListRest d xs).length + 1
  | _, JsonList.nil => by simp [jsizeL, printListRest]
  | d, JsonList.cons x xs => by
    have h1 := jsize_le_printVal_length d x
    have h2 := jsizeL_le_printListRest_length d xs
    simp [jsizeL, printListRest, List.length_append, spacesChars]
    omega

theorem jsizeO_le_printObjRest_length : ∀ (d : Nat) (kvs : JsonObj),
    jsizeO kvs ≤ (printObjRest d kvs).length + 1
  | _, JsonObj.nil => by simp [jsizeO, printObjRest]
  | d, JsonObj.cons k v kvs => by
    have h1 := jsize_le_printVal_length d v
    have h2 := jsizeO_le_printObjRest_length d kvs
    simp [jsizeO, printObjRest, keyChars, List.length_append, spacesChars]
    omega
end

/-- Round trip: parsing the pretty-printed JSON of a value yields exactly the
value (structural equality), as the specification requires. -/
theorem parseJson_stringify (v : Json) : parseJson (stringify v) = some v := by
  have hlen : (stringify v).length = (printVal 0 v).length := by
    rw [stringify]
    rfl
  have hlist : (stringify v).toList = printVal 0 v := rfl
  rw [parseJson, hlen, hlist]
  have hmain := (parse_print_all (printVal 0 v).length).1 v 0 [] []
    (jsize_le_printVal_length 0 v) wsOnly_nil trivial
  simp only [List.nil_append, List.append_nil] at hmain
  rw [hmain]
  rfl

/-- C1: for a poll-response sequence `[processing, processing, completed(X)]`,
`waitForCompletion` returns exactly `X`, and exactly three status-check
requests are issued, in order, all carrying the same `extract_id` (the event
log is exactly check, sleep, check, sleep, check). -/
theorem c1_poll_sequence (o : Oracle) (jid js : String) (r0 r1 r2 : ExtractResponse)
    (X : Option Json) (fuel : Nat)
    (h0 : o.poll 0 = FetchResult.ok r0) (h0s : r0.status = "processing")
    (h1 : o.poll 1 = FetchResult.ok r1) (h1s : r1.status = "processing")
    (h2 : o.poll 2 = FetchResult.ok r2) (h2s : r2.status = "completed")
    (h2d : r2.data = X) :
    waitForCompletion o jid 0 (fuel + 3) js =
      some (WaitResult.done X, "completed",
        [Event.request (statusCheckBody jid), Event.sleep 2000,
         Event.request (statusCheckBody jid), Event.sleep 2000,
         Event.request (statusCheckBody jid)]) ∧
    statusCheckList
        [Event.request (statusCheckBody jid), Event.sleep 2000,
         Event.request (statusCheckBody jid), Event.sleep 2000,
         Event.request (statusCheckBody jid)] =
      [statusCheckBody jid, statusCheckBody jid, statusCheckBody jid] := by
  constructor
  · simp [waitForCompletion, pollJobStatus, h0, h1, h2, h0s, h1s, h2s, h2d]
  · rfl

/-- Witness for C1 at a concrete oracle, job id and fuel. -/
theorem c1_poll_sequence_witness :
    waitForCompletion oracleSeq "job-1" 0 3 "" =
      some (WaitResult.done (some sampleJson), "completed",
        [Event.request (statusCheckBody "job-1"), Event.sleep 2000,
         Event.request (statusCheckBody "job-1"), Event.sleep 2000,
         Event.request (statusCheckBody "job-1")]) :=
  (c1_poll_sequence oracleSeq "job-1" "" procResp procResp doneResp (some sampleJson) 0
    rfl rfl rfl rfl rfl rfl rfl).1

/-- C4: a poll response with status `failed` makes `waitForCompletion` fail
with the `Extraction job failed` error after exactly the one status-check
request that received it (no further polls); a `cancelled` response likewise
fails with the `Extraction job was cancelled` error. -/
theorem c4_terminal_failures (o : Oracle) (jid : String) (i fuel : Nat) (js : String)
    (r : ExtractResponse) :
    (o.poll i = FetchResult.ok r → r.status = "failed" →
      waitForCompletion o jid i (fuel + 1) js =
        some (WaitResult.failed "Extraction job failed", r.status,
          [Event.request (statusCheckBody jid)])) ∧
    (o.poll i = FetchResult.ok r → r.status = "cancelled" →
      waitForCompletion o jid i (fuel + 1) js =
        some (WaitResult.failed "Extraction job was cancelled", r.status,
          [Event.request (statusCheckBody jid)])) := by
  constructor
  · intro hp hs
    simp [waitForCompletion, pollJobStatus, hp, hs]
  · intro hp hs
    simp [waitForCompletion, pollJobStatus, hp, hs]

/-- Witness for C4 at concrete oracles for both terminal failure statuses. -/
theorem c4_terminal_failures_witness :
    waitForCompletion oracleFail "job-1" 0 1 "" =
      some (WaitResult.failed "Extraction job failed", "failed",
        [Event.request (statusCheckBody "job-1")]) ∧
    waitForCompletion oracleCancel "job-1" 0 1 "" =
      some (WaitResult.failed "Extraction job was cancelled", "cancelled",
        [Event.request (statusCheckBody "job-1")]) :=
  ⟨(c4_terminal_failures oracleFail "job-1" 0 0 "" failedResp).1 rfl rfl,
   (c4_terminal_failures oracleCancel "job-1" 0 0 "" cancelledResp).2 rfl rfl⟩

/-- C2: when the URL is empty, the prompt is empty, or the URL does not parse
as a valid absolute URL, both submit handlers return with an unchanged state
and an event log consisting of a single destructive validation toast — in
particular zero network requests are issued, so validation happens before any
network call. -/
theorem c2_validation (validURL : String → Bool) (o : Oracle) (resp : SimpleFetch)
    (fuel : Nat) (s : UIState)
    (h : s.url = "" ∨ s.prompt = "" ∨ validURL s.url = false) :
    ∃ t d, handleExtract validURL o fuel s = some (s, [Event.toast t d "destructive"]) ∧
      (t = "Missing Information" ∨ t = "Invalid URL") ∧
      handleExtractSimple validURL resp s = (s, [Event.toast t d "destructive"]) ∧
      requestsOf [Event.toast t d "destructive"] = [] := by
  by_cases h1 : s.url = "" ∨ s.prompt = ""
  · refine ⟨"Missing Information", "Please provide both a URL and extraction prompt",
      ?_, Or.inl rfl, ?_, rfl⟩
    · rcases h1 with h1 | h1 <;> simp [handleExtract, h1]
    · rcases h1 with h1 | h1 <;> simp [handleExtractSimple, h1]
  · push_neg at h1
    have hv : validURL s.url = false := by
      rcases h with h | h | h
      · exact absurd h h1.1
      · exact absurd h h1.2
      · exact h
    refine ⟨"Invalid URL", "Please enter a valid website URL", ?_, Or.inr rfl, ?_, rfl⟩
    · simp [handleExtract, h1.1, h1.2, hv]
    · simp [handleExtractSimple, h1.1, h1.2, hv]

/-- Witness for C2 at a concrete invalid state (empty URL). -/
theorem c2_validation_witness :
    ∃ t d, handleExtract vTrue oracleNow 0 stateBad = some (stateBad, [Event.toast t d "destructive"]) ∧
      (t = "Missing Information" ∨ t = "Invalid URL") ∧
      handleExtractSimple vTrue (SimpleFetch.ok Json.null) stateBad =
        (stateBad, [Event.toast t d "destructive"]) ∧
      requestsOf [Event.toast t d "destructive"] = [] :=
  c2_validation vTrue oracleNow (SimpleFetch.ok Json.null) 0 stateBad (Or.inl rfl)

/-- C3: an initial response with `success: true` and `status: completed` makes
`handleExtract` store that response's `data` field as the final result, with
an event log of exactly the submission request and the success toast — zero
status-check (polling) requests. -/
theorem c3_immediate_complete (validURL : String → Bool) (o : Oracle) (fuel : Nat)
    (s : UIState) (r : ExtractResponse)
    (hu : s.url ≠ "") (hp : s.prompt ≠ "") (hv : validURL s.url = true)
    (hr : o.initial = FetchResult.ok r) (hs : r.success = true)
    (hc : r.status = "completed") :
    ∃ s2, handleExtract validURL o fuel s =
        some (s2, [Event.request (Request.submit [s.url] s.prompt), okToast]) ∧
      s2.extractedData = r.data ∧
      statusCheckList [Event.request (Request.submit [s.url] s.prompt), okToast] = [] := by
  have hmain : handleExtract validURL o fuel s =
      some ({ s with isLoading := false, error := "", extractedData := r.data,
                     jobStatus := "" },
        [Event.request (Request.submit [s.url] s.prompt), okToast]) := by
    simp [handleExtract, hu, hp, hv, hr, hs, hc, finallyReset]
  exact ⟨_, hmain, rfl, rfl⟩

/-- Witness for C3 at a concrete oracle whose initial response is completed. -/
theorem c3_immediate_complete_witness :
    ∃ s2, handleExtract vTrue oracleNow 0 stateW =
        some (s2, [Event.request (Request.submit [stateW.url] stateW.prompt), okToast]) ∧
      s2.extractedData = doneResp.data ∧
      statusCheckList [Event.request (Request.submit [stateW.url] stateW.prompt), okToast] =
        [] :=
  c3_immediate_complete vTrue oracleNow 0 stateW doneResp (by decide) (by decide) rfl rfl
    rfl rfl

/-- Counterexample to C5 as stated: an initial response with `success: true`,
a non-terminal status, no `extract_id`, and a present, truthy `data` field.
The handler stores the `data` field (`"hello"`), not the whole response
object, because the fallback is `initialResponse.data || initialResponse`. -/
theorem c5_counterexample :
    handleExtract vTrue oracleFallback 0 stateW =
      some (stateFallbackResult,
        [Event.request (Request.submit [stateW.url] stateW.prompt), okToast]) ∧
    stateFallbackResult.extractedData = some (Json.str "hello") ∧
    stateFallbackResult.extractedData ≠ some (ExtractResponse.toJson fallbackResp) := by
  refine ⟨rfl, rfl, ?_⟩
  intro h
  simp [stateFallbackResult, ExtractResponse.toJson, fallbackResp, optField] at h

/-- C5 (amended): for an initial response with `success: true`, a status other
than `completed` and no `extract_id`, the handler issues no polling call and
stores `initialResponse.data || initialResponse` as the final result: the
`data` field itself when it is present and truthy, and only otherwise the
whole response object (`fallbackData`). -/
theorem c5_fallback (validURL : String → Bool) (o : Oracle) (fuel : Nat)
    (s : UIState) (r : ExtractResponse)
    (hu : s.url ≠ "") (hp : s.prompt ≠ "") (hv : validURL s.url = true)
    (hr : o.initial = FetchResult.ok r) (hs : r.success = true)
    (hc : r.status ≠ "completed") (hid : r.extract_id = none) :
    ∃ s2, handleExtract validURL o fuel s =
        some (s2, [Event.request (Request.submit [s.url] s.prompt), okToast]) ∧
      s2.extractedData = some (fallbackData r) ∧
      statusCheckList [Event.request (Request.submit [s.url] s.prompt), okToast] = [] := by
  have hmain : handleExtract validURL o fuel s =
      some ({ s with isLoading := false, error := "",
                     extractedData := some (fallbackData r), jobStatus := "" },
        [Event.request (Request.submit [s.url] s.prompt), okToast]) := by
    simp [handleExtract, hu, hp, hv, hr, hs, hc, hid, finallyReset]
  exact ⟨_, hmain, rfl, rfl⟩

/-- Witness for the amended C5 at a concrete oracle. -/
theorem c5_fallback_witness :
    ∃ s2, handleExtract vTrue oracleFallback 0 stateW =
        some (s2, [Event.request (Request.submit [stateW.url] stateW.prompt), okToast]) ∧
      s2.extractedData = some (fallbackData fallbackResp) ∧
      statusCheckList [Event.request (Request.submit [stateW.url] stateW.prompt), okToast] =
        [] :=
  c5_fallback vTrue oracleFallback 0 stateW fallbackResp (by decide) (by decide) rfl rfl
    rfl (by decide) rfl

/-- C7: an initial response with `success: false` makes `handleExtract` fail
with the SubmissionError (`Failed to start extraction job`), regardless of the
response's status or data fields, with no polling request: the event log is
exactly the submission request and the failure toast, and the final error
message carries the submission failure. -/
theorem c7_submission_error (validURL : String → Bool) (o : Oracle) (fuel : Nat)
    (s : UIState) (r : ExtractResponse)
    (hu : s.url ≠ "") (hp : s.prompt ≠ "") (hv : validURL s.url = true)
    (hr : o.initial = FetchResult.ok r) (hs : r.success = false) :
    ∃ s2, handleExtract validURL o fuel s =
        some (s2, [Event.request (Request.submit [s.url] s.prompt),
          failToast "Failed to start extraction job"]) ∧
      s2.error = "Failed to extract data: Failed to start extraction job" ∧
      s2.extractedData = none ∧
      statusCheckList [Event.request (Request.submit [s.url] s.prompt),
        failToast "Failed to start extraction job"] = [] := by
  have hmain : handleExtract validURL o fuel s =
      some ({ s with isLoading := false,
                     error := "Failed to extract data: Failed to start extraction job",
                     extractedData := none, jobStatus := "" },
        [Event.request (Request.submit [s.url] s.prompt),
          failToast "Failed to start extraction job"]) := by
    simp [handleExtract, hu, hp, hv, hr, hs, finallyReset, catchErr]
  exact ⟨_, hmain, rfl, rfl, rfl⟩

/-- Witness for C7 at a concrete rejecting oracle. -/
theorem c7_submission_error_witness :
    ∃ s2, handleExtract vTrue oracleReject 0 stateW =
        some (s2, [Event.request (Request.submit [stateW.url] stateW.prompt),
          failToast "Failed to start extraction job"]) ∧
      s2.error = "Failed to extract data: Failed to start extraction job" ∧
      s2.extractedData = none ∧
      statusCheckList [Event.request (Request.submit [stateW.url] stateW.prompt),
        failToast "Failed to start extraction job"] = [] :=
  c7_submission_error vTrue oracleReject 0 stateW rejectResp (by decide) (by decide) rfl
    rfl rfl

/-- C9: every run of `handleExtract` that passes validation and completes —
whether in success, submission failure, job failure, cancellation or transport
error — ends with `isLoading = false` and `jobStatus = ""`, because the
`finally` block always runs. -/
theorem c9_finally_reset (validURL : String → Bool) (o : Oracle) (fuel : Nat)
    (s s2 : UIState) (evs : List Event)
    (hu : s.url ≠ "") (hp : s.prompt ≠ "") (hv : validURL s.url = true)
    (hrun : handleExtract validURL o fuel s = some (s2, evs)) :
    s2.isLoading = false ∧ s2.jobStatus = "" := by
  rw [handleExtract] at hrun
  simp only [hu, hp, hv] at hrun
  rw [if_neg (by simp [hu, hp]), if_neg (by simp)] at hrun
  obtain ⟨p, hb, hp2⟩ := Option.map_eq_some'.mp hrun
  have h1 : s2 = finallyReset p.1 := by
    have := congrArg Prod.fst hp2
    simp at this
    exact this.symm
  rw [h1]
  exact ⟨rfl, rfl⟩

/-- Witness for C9 at a concrete completed run. -/
theorem c9_finally_reset_witness :
    stateNowResult.isLoading = false ∧ stateNowResult.jobStatus = "" :=
  c9_finally_reset vTrue oracleNow 0 stateW stateNowResult
    [Event.request (Request.submit [stateW.url] stateW.prompt), okToast]
    (by decide) (by decide) rfl rfl

/-- C10: whenever a completed run of `handleExtract` (past the initial
validation guards) ends with a non-empty error message — transport error,
SubmissionError, JobFailedError or JobCancelledError — the stored
`extractedData` is `none`: it is cleared before the network call and never
assigned on an error path, so an error message and an extracted result are
never both present. -/
theorem c10_error_no_data (validURL : String → Bool) (o : Oracle) (fuel : Nat)
    (s s2 : UIState) (evs : List Event)
    (hu : s.url ≠ "") (hp : s.prompt ≠ "") (hv : validURL s.url = true)
    (hrun : handleExtract validURL o fuel s = some (s2, evs))
    (herr : s2.error ≠ "") :
    s2.extractedData = none := by
  cases ho : o.initial with
  | httpError code =>
    have hmain : handleExtract validURL o fuel s =
        some ({ s with isLoading := false,
                       error := "Failed to extract data: " ++ httpErrMsg code,
                       extractedData := none, jobStatus := "" },
          [Event.request (Request.submit [s.url] s.prompt), failToast (httpErrMsg code)]) := by
      simp [handleExtract, hu, hp, hv, ho, finallyReset, catchErr]
    rw [hmain] at hrun
    simp only [Option.some.injEq, Prod.mk.injEq] at hrun
    rw [← hrun.1]
  | networkError msg =>
    have hmain : handleExtract validURL o fuel s =
        some ({ s with isLoading := false, error := "Failed to extract data: " ++ msg,
                       extractedData := none, jobStatus := "" },
          [Event.request (Request.submit [s.url] s.prompt), failToast msg]) := by
      simp [handleExtract, hu, hp, hv, ho, finallyReset, catchErr]
    rw [hmain] at hrun
    simp only [Option.some.injEq, Prod.mk.injEq] at hrun
    rw [← hrun.1]
  | ok r =>
    by_cases hsucc : r.success = false
    · have hmain : handleExtract validURL o fuel s =
          some ({ s with isLoading := false,
                         error := "Failed to extract data: Failed to start extraction job",
                         extractedData := none, jobStatus := "" },
            [Event.request (Request.submit [s.url] s.prompt),
              failToast "Failed to start extraction job"]) := by
        simp [handleExtract, hu, hp, hv, ho, hsucc, finallyReset, catchErr]
      rw [hmain] at hrun
      simp only [Option.some.injEq, Prod.mk.injEq] at hrun
      rw [← hrun.1]
    · by_cases hcomp : r.status = "completed"
      · have hmain : handleExtract validURL o fuel s =
            some ({ s with isLoading := false, error := "", extractedData := r.data,
                           jobStatus := "" },
              [Event.request (Request.submit [s.url] s.prompt), okToast]) := by
          simp [handleExtract, hu, hp, hv, ho, hsucc, hcomp, finallyReset]
        rw [hmain] at hrun
        simp only [Option.some.injEq, Prod.mk.injEq] at hrun
        rw [← hrun.1] at herr
        exact absurd rfl herr
      · cases hid : r.extract_id with
        | none =>
          have hmain : handleExtract validURL o fuel s =
              some ({ s with isLoading := false, error := "",
                             extractedData := some (fallbackData r), jobStatus := "" },
                [Event.request (Request.submit [s.url] s.prompt), okToast]) := by
            simp [handleExtract, hu, hp, hv, ho, hsucc, hcomp, hid, finallyReset]
          rw [hmain] at hrun
          simp only [Option.some.injEq, Prod.mk.injEq] at hrun
          rw [← hrun.1] at herr
          exact absurd rfl herr
        | some jid =>
          by_cases hjid : jid = ""
          · have hmain : handleExtract validURL o fuel s =
                some ({ s with isLoading := false, error := "",
                               extractedData := some (fallbackData r), jobStatus := "" },
                  [Event.request (Request.submit [s.url] s.prompt), okToast]) := by
              simp [handleExtract, hu, hp, hv, ho, hsucc, hcomp, hid, hjid, finallyReset]
            rw [hmain] at hrun
            simp only [Option.some.injEq, Prod.mk.injEq] at hrun
            rw [← hrun.1] at herr
            exact absurd rfl herr
          · cases hwfc : waitForCompletion o jid 0 fuel "" with
            | none =>
              have hmain : handleExtract validURL o fuel s = none := by
                simp [handleExtract, hu, hp, hv, ho, hsucc, hcomp, hid, hjid, hwfc]
              rw [hmain] at hrun
              cases hrun
            | some res =>
              obtain ⟨w, js, evs2⟩ := res
              cases w with
              | done d2 =>
                have hmain : handleExtract validURL o fuel s =
                    some ({ s with isLoading := false, error := "", extractedData := d2,
                                   jobStatus := "" },
                      Event.request (Request.submit [s.url] s.prompt) ::
                        (evs2 ++ [okToast])) := by
                  simp [handleExtract, hu, hp, hv, ho, hsucc, hcomp, hid, hjid, hwfc,
                    finallyReset]
                rw [hmain] at hrun
                simp only [Option.some.injEq, Prod.mk.injEq] at hrun
                rw [← hrun.1] at herr
                exact absurd rfl herr
              | failed msg =>
                have hmain : handleExtract validURL o fuel s =
                    some ({ s with isLoading := false,
                                   error := "Failed to extract data: " ++ msg,
                                   extractedData := none, jobStatus := "" },
                      Event.request (Request.submit [s.url] s.prompt) ::
                        (evs2 ++ [failToast msg])) := by
                  simp [handleExtract, hu, hp, hv, ho, hsucc, hcomp, hid, hjid, hwfc,
                    finallyReset, catchErr]
                rw [hmain] at hrun
                simp only [Option.some.injEq, Prod.mk.injEq] at hrun
                rw [← hrun.1]

/-- Witness for C10 at a concrete failing run (SubmissionError). -/
theorem c10_error_no_data_witness : stateRejectResult.extractedData = none :=
  c10_error_no_data vTrue oracleReject 0 stateW stateRejectResult
    [Event.request (Request.submit [stateW.url] stateW.prompt),
      failToast "Failed to start extraction job"]
    (by decide) (by decide) rfl rfl (by decide)

/-- C8: for a successful extraction, the rendered output of the results card
is the pretty-printed JSON (`JSON.stringify(·, null, 2)`) of exactly the data
value stored by the terminal response, and parsing the rendered string yields
a JSON value structurally equal to that data value. -/
theorem c8_render_roundtrip (validURL : String → Bool) (o : Oracle) (fuel : Nat)
    (s s2 : UIState) (evs : List Event) (v : Json) (out : String)
    (_hu : s.url ≠ "") (_hp : s.prompt ≠ "") (_hv : validURL s.url = true)
    (_hrun : handleExtract validURL o fuel s = some (s2, evs))
    (hdata : s2.extractedData = some v)
    (hout : renderResult s2 = some out) :
    out = stringify v ∧ parseJson out = some v := by
  simp only [renderResult, hdata] at hout
  split at hout
  · simp only [Option.some.injEq] at hout
    subst hout
    exact ⟨rfl, parseJson_stringify v⟩
  · cases hout

/-- Witness for C8 at a concrete successful run rendering `sampleJson`. -/
theorem c8_render_roundtrip_witness :
    stringify sampleJson = stringify sampleJson ∧
      parseJson (stringify sampleJson) = some sampleJson :=
  c8_render_roundtrip vTrue oracleNow 0 stateW stateNowResult
    [Event.request (Request.submit [stateW.url] stateW.prompt), okToast]
    sampleJson (stringify sampleJson)
    (by decide) (by decide) rfl rfl rfl rfl

/-- A terminal poll response makes one iteration of the loop return. -/
theorem waitForCompletion_terminal_step (o : Oracle) (jid : String) (i : Nat) (js : String)
    (h : terminalPoll o i) :
    ∃ res, waitForCompletion o jid i 1 js = some res := by
  cases hp : o.poll i with
  | ok r =>
    rw [terminalPoll, hp] at h
    rcases h with h | h | h
    · exact ⟨(WaitResult.done r.data, r.status, [Event.request (statusCheckBody jid)]),
        by simp [waitForCompletion, pollJobStatus, hp, h]⟩
    · exact ⟨(WaitResult.failed "Extraction job failed", r.status,
          [Event.request (statusCheckBody jid)]),
        by simp [waitForCompletion, pollJobStatus, hp, h]⟩
    · exact ⟨(WaitResult.failed "Extraction job was cancelled", r.status,
          [Event.request (statusCheckBody jid)]),
        by simp [waitForCompletion, pollJobStatus, hp, h]⟩
  | httpError code =>
    exact ⟨(WaitResult.failed (httpErrMsg code), js, [Event.request (statusCheckBody jid)]),
      by simp [waitForCompletion, pollJobStatus, hp]⟩
  | networkError msg =>
    exact ⟨(WaitResult.failed msg, js, [Event.request (statusCheckBody jid)]),
      by simp [waitForCompletion, pollJobStatus, hp]⟩

/-- If the loop returns within some fuel, a terminal response occurs in the
polled sequence. -/
theorem waitForCompletion_some_terminal (o : Oracle) (jid : String) :
    ∀ (fuel i : Nat) (js : String) (res : WaitResult × String × List Event),
      waitForCompletion o jid i fuel js = some res → ∃ n, terminalPoll o (i + n) := by
  intro fuel
  induction fuel with
  | zero =>
    intro i js res h
    rw [waitForCompletion] at h
    cases h
  | succ fuel ih =>
    intro i js res h
    rw [waitForCompletion] at h
    cases hp : o.poll i with
    | httpError code => exact ⟨0, by simp [terminalPoll, hp]⟩
    | networkError msg => exact ⟨0, by simp [terminalPoll, hp]⟩
    | ok r =>
      by_cases h1 : r.status = "completed"
      · exact ⟨0, by simp [terminalPoll, hp, h1]⟩
      · by_cases h2 : r.status = "failed"
        · exact ⟨0, by simp [terminalPoll, hp, h2]⟩
        · by_cases h3 : r.status = "cancelled"
          · exact ⟨0, by simp [terminalPoll, hp, h3]⟩
          · simp only [pollJobStatus, hp, h1, h2, h3, if_false] at h
            cases hrec : waitForCompletion o jid (i + 1) fuel r.status with
            | none => rw [hrec] at h; cases h
            | some res2 =>
              obtain ⟨n, hn⟩ := ih (i + 1) r.status res2 hrec
              refine ⟨n + 1, ?_⟩
              have hsh : i + 1 + n = i + (n + 1) := by omega
              rw [hsh] at hn
              exact hn

/-- If a terminal response occurs in the polled sequence, some fuel makes the
loop return. -/
theorem waitForCompletion_terminal_some (o : Oracle) (jid : String) :
    ∀ (n i : Nat) (js : String), terminalPoll o (i + n) →
      ∃ fuel res, waitForCompletion o jid i fuel js = some res := by
  intro n
  induction n with
  | zero =>
    intro i js h
    simp only [Nat.add_zero] at h
    obtain ⟨res, hres⟩ := waitForCompletion_terminal_step o jid i js h
    exact ⟨1, res, hres⟩
  | succ n ih =>
    intro i js h
    by_cases ht : terminalPoll o i
    · obtain ⟨res, hres⟩ := waitForCompletion_terminal_step o jid i js ht
      exact ⟨1, res, hres⟩
    · cases hp : o.poll i with
      | httpError code => exact absurd (by simp [terminalPoll, hp]) ht
      | networkError msg => exact absurd (by simp [terminalPoll, hp]) ht
      | ok r =>
        have hst : ¬ (r.status = "completed" ∨ r.status = "failed" ∨
            r.status = "cancelled") := by
          rw [terminalPoll, hp] at ht
          exact ht
        push_neg at hst
        obtain ⟨h1, h2, h3⟩ := hst
        have hshift : i + (n + 1) = (i + 1) + n := by omega
        rw [hshift] at h
        obtain ⟨fuel, res, hres⟩ := ih (i + 1) r.status h
        refine ⟨fuel + 1, (res.1, res.2.1,
          Event.request (statusCheckBody jid) :: Event.sleep 2000 :: res.2.2), ?_⟩
        rw [waitForCompletion]
        simp [pollJobStatus, hp, h1, h2, h3, hres]

/-- C6: `waitForCompletion` terminates exactly when the poll-response sequence
contains a terminal response (`completed`, `failed`, `cancelled`, or a
transport failure); on every non-terminal response it issues the status-check,
sleeps the fixed 2000 ms, and repeats — with no retry bound, so a
forever-`processing` sequence polls indefinitely. -/
theorem c6_termination (o : Oracle) (jid : String) (i : Nat) (js : String) :
    ((∃ fuel res, waitForCompletion o jid i fuel js = some res) ↔
      ∃ n, terminalPoll o (i + n)) ∧
    (∀ (fuel : Nat) (r : ExtractResponse), o.poll i = FetchResult.ok r →
      r.status ≠ "completed" → r.status ≠ "failed" → r.status ≠ "cancelled" →
      waitForCompletion o jid i (fuel + 1) js =
        (waitForCompletion o jid (i + 1) fuel r.status).map
          (fun p => (p.1, p.2.1,
            Event.request (statusCheckBody jid) :: Event.sleep 2000 :: p.2.2))) := by
  constructor
  · constructor
    · rintro ⟨fuel, res, hres⟩
      exact waitForCompletion_some_terminal o jid fuel i js res hres
    · rintro ⟨n, hn⟩
      exact waitForCompletion_terminal_some o jid n i js hn
  · intro fuel r hp h1 h2 h3
    rw [waitForCompletion]
    cases hrec : waitForCompletion o jid (i + 1) fuel r.status with
    | none => simp [pollJobStatus, hp, h1, h2, h3, hrec]
    | some res => simp [pollJobStatus, hp, h1, h2, h3, hrec]

/-- Witness for C6: at the forever-`processing` oracle the loop's step
equation holds concretely, and a terminal oracle terminates. -/
theorem c6_termination_witness :
    (waitForCompletion oracleProc "job-1" 0 1 "" =
      (waitForCompletion oracleProc "job-1" 1 0 "processing").map
        (fun p => (p.1, p.2.1,
          Event.request (statusCheckBody "job-1") :: Event.sleep 2000 :: p.2.2))) ∧
    (∃ fuel res, waitForCompletion oracleFail "job-1" 0 fuel "" = some res) :=
  ⟨(c6_termination oracleProc "job-1" 0 "").2 0 procResp rfl (by decide) (by decide)
      (by decide),
   ((c6_termination oracleFail "job-1" 0 "").1).mpr ⟨0, Or.inr (Or.inl rfl)⟩⟩
